import Mathlib

/-!
Verification development for the dataset/batching engine of a sequence-to-sequence
data pipeline (rtg/data/dataset.py plus its serving wrapper).

The Python source is shallowly embedded: pure record manipulation becomes Lean
functions over lists; Python exceptions (assert failures, KeyError, IndexError,
TypeError raised on None, and explicit raises) become `Except Unit`; the sqlite
store becomes a list of rows; pickle blobs become an executable self-describing
byte encoding of integer sequences; random orderings (ORDER BY RANDOM, shuffle)
become universally quantified permutations.
-/

namespace Rtg

/-- Model of `IdExample`: a record with a source sequence `x`, an optional target
sequence `y`, and an `id` (field order mirrors the Python constructor). -/
structure IdExample where
  x : List Int
  y : Option (List Int)
  id : Nat
deriving DecidableEq, Repr

/-- Model of a row of the sqlite `data` table: autoincrement `id`, pickled blobs
for `x` and (nullable) `y`, and the stored lengths (`y_len` is `-1` for rows
written without a target side). -/
structure SRow where
  id : Nat
  x : List Nat
  y : Option (List Nat)
  x_len : Nat
  y_len : Int
deriving DecidableEq, Repr

/-- Effectful map over a list in the `Except Unit` monad: the model of a Python
loop or generator that may raise while producing its elements. -/
def exceptMap {α β : Type} (f : α → Except Unit β) : List α → Except Unit (List β)
  | [] => .ok []
  | a :: l => do
    let b ← f a
    let r ← exceptMap f l
    .ok (b :: r)

/-- Model of `pickle.dumps` for one integer: a sign marker followed by the
absolute value.  The spec only requires a self-describing serialization of a
variable-length integer sequence that round-trips exactly; `pickle` is an
external library, embedded by this executable encoding. -/
def encInt (z : Int) : List Nat :=
  [if z < 0 then 1 else 0, z.natAbs]

/-- Model of `pickle.dumps` for an integer sequence: element count followed by
the per-element encodings. -/
def encodeBlob (xs : List Int) : List Nat :=
  xs.length :: (xs.map encInt).flatten

/-- Decoder for `encInt`-encoded streams: reads `n` integers off the stream. -/
def decInts : Nat → List Nat → Option (List Int)
  | 0, _ => some []
  | n + 1, s :: v :: rest =>
    match decInts n rest with
    | none => none
    | some vs => some ((if s = 1 then -(v : Int) else (v : Int)) :: vs)
  | _ + 1, _ => none

/-- Model of `pickle.loads` for an integer-sequence blob. -/
def decodeBlob : List Nat → Option (List Int)
  | [] => none
  | n :: rest => decInts n rest

/-- Row built by `SqliteFile.write` for one record at autoincrement id `i`:
pickled blobs and the stored lengths (`-1` for a missing `y`). -/
def mkRow (p : List Int × Option (List Int)) (i : Nat) : SRow :=
  { id := i
    x := encodeBlob p.1
    y := p.2.map encodeBlob
    x_len := p.1.length
    y_len := match p.2 with | some ys => (ys.length : Int) | none => -1 }

/-- Insertion loop of `SqliteFile.write` from a given autoincrement value. -/
def sqlite_write_go : List (List Int × Option (List Int)) → Nat → List SRow
  | [], _ => []
  | rec :: rest, start => mkRow rec start :: sqlite_write_go rest (start + 1)

/-- Model of `SqliteFile.write`: each `(x_seq, y_seq)` record becomes a row,
with sqlite's autoincrement ids starting at 1. -/
def sqlite_write (records : List (List Int × Option (List Int))) : List SRow :=
  sqlite_write_go records 1

/-- Model of one step of `SqliteFile.__iter__` on a fetched row: unpickle the
blobs (a corrupt blob is an exception), skip records with a missing or empty
side, then apply the max-length skip-or-truncate policy; `ok none` is a skipped
row, `ok (some e)` a yielded record. -/
def sqlite_read_row (maxSrc maxTgt : Nat) (truncate : Bool) (r : SRow) :
    Except Unit (Option IdExample) :=
  match decodeBlob r.x with
  | none => .error ()
  | some x =>
    match r.y with
    | none => .ok none
    | some yb =>
      match decodeBlob yb with
      | none => .error ()
      | some y =>
        if x.isEmpty || y.isEmpty then .ok none
        else if maxSrc < x.length || maxTgt < y.length then
          if truncate then .ok (some { x := x.take maxSrc, y := some (y.take maxTgt), id := r.id })
          else .ok none
        else .ok (some { x := x, y := some y, id := r.id })

/-- Model of `SqliteFile.__iter__` over the rows the SELECT returned (the query
order is a permutation of the store, quantified at the theorems). -/
def sqlite_iter (maxSrc maxTgt : Nat) (truncate : Bool) (rows : List SRow) :
    Except Unit (List IdExample) := do
  let os ← exceptMap (sqlite_read_row maxSrc maxTgt truncate) rows
  .ok (os.filterMap (fun o => o))

/-- Value a row contributes to an `__iter__` pass when reading it raises no
exception (`none` when the row is skipped). -/
def rowToExample (maxSrc maxTgt : Nat) (truncate : Bool) (r : SRow) : Option IdExample :=
  match sqlite_read_row maxSrc maxTgt truncate r with
  | .ok o => o
  | .error _ => none

/-- Model of the dict row factory applied to a full row fetch: unpickle `x` and
`y` into an `IdExample`. -/
def decodeRow (r : SRow) : Except Unit IdExample :=
  match decodeBlob r.x with
  | none => .error ()
  | some x =>
    match r.y with
    | none => .ok { x := x, y := none, id := r.id }
    | some yb =>
      match decodeBlob yb with
      | none => .error ()
      | some y => .ok { x := x, y := some y, id := r.id }

/-- Model of `SqliteFile.get_all_ids`: `SELECT * FROM data WHERE id IN (ids)` —
exactly the rows whose id occurs in the request, in store order; a requested id
with no matching row simply contributes nothing. -/
def sqlite_get_all_ids (rows : List SRow) (ids : List Nat) : Except Unit (List IdExample) :=
  exceptMap decodeRow (rows.filter (fun r => decide (r.id ∈ ids)))

/-- Record a decodable row denotes (used to state `get_all_ids` results; on a
decodable row it agrees with `decodeRow`). -/
def decodeRowPure (r : SRow) : IdExample :=
  { x := (decodeBlob r.x).getD []
    y := r.y.map (fun yb => (decodeBlob yb).getD [])
    id := r.id }

/-- A row whose blobs unpickle successfully (true for every row produced by
`sqlite_write`). -/
def decodableRow (r : SRow) : Bool :=
  (decodeBlob r.x).isSome &&
    (match r.y with | none => true | some yb => (decodeBlob yb).isSome)

/-- Model of `InMemoryData`: the materialized records plus the id-to-position
association built during ingestion. -/
structure InMemoryData where
  data : List IdExample
  ids : List (Nat × Nat)
deriving DecidableEq, Repr

/-- Loop of the `InMemoryData` constructor: append each record, asserting that
its id is not already present (`DuplicateIdError` otherwise). -/
def inMemory_init_go : List IdExample → List IdExample → List (Nat × Nat) →
    Except Unit InMemoryData
  | [], data, ids => .ok { data := data, ids := ids }
  | r :: rest, data, ids =>
    if (ids.lookup r.id).isSome then .error ()
    else inMemory_init_go rest (data ++ [r]) (ids ++ [(r.id, data.length)])

/-- Model of the `InMemoryData` constructor. -/
def inMemory_init (stream : List IdExample) : Except Unit InMemoryData :=
  inMemory_init_go stream [] []

/-- One lookup of `InMemoryData.get_all_ids`: position lookup for a requested
id (a missing id is a `KeyError`), then indexing into the materialized list. -/
def inmem_lookup1 (m : InMemoryData) (i : Nat) : Except Unit IdExample :=
  match m.ids.lookup i with
  | none => .error ()
  | some ix =>
    match m.data[ix]? with
    | none => .error ()
    | some ex => .ok ex

/-- Model of `InMemoryData.get_all_ids`: one indexed fetch per requested id. -/
def inmem_get_all_ids (m : InMemoryData) (ids : List Nat) : Except Unit (List IdExample) :=
  exceptMap (inmem_lookup1 m) ids

/-- Well-formedness of the in-memory index: every association entry points at a
materialized record carrying that id (established by `inMemory_init`). -/
def inmemWF (m : InMemoryData) : Prop :=
  ∀ i ix, m.ids.lookup i = some ix → ∃ ex, m.data[ix]? = some ex ∧ ex.id = i

/-- Model of `TSVData.read_all` on pre-parsed lines (each line is an `x` field
and an optional `y` field): truncate or skip over-length records, skip records
empty on one side, and tag with the line index as id. -/
def tsv_read_all (maxSrc maxTgt : Nat) (truncate : Bool)
    (lines : List (List Int × Option (List Int))) : List IdExample :=
  lines.enum.filterMap fun p =>
    let x0 := p.2.1
    let y0 := p.2.2
    if truncate then
      let x := x0.take maxSrc
      let y := y0.map (fun l => l.take maxTgt)
      if x.isEmpty || (match y with | none => false | some l => l.isEmpty) then none
      else some { x := x, y := y, id := p.1 }
    else
      if maxSrc < x0.length || maxTgt < (match y0 with | none => 0 | some l => l.length) then none
      else if x0.isEmpty || (match y0 with | none => false | some l => l.isEmpty) then none
      else some { x := x0, y := y0, id := p.1 }

/-- Sort key used by `TSVData.__iter__` with `longest_first`: target length, or
source length when there is no target. -/
def tsvSortKey (ex : IdExample) : Nat :=
  match ex.y with
  | some l => l.length
  | none => ex.x.length

/-- Model of Python `sorted(mem, key=sort_key, reverse=True)`: a stable
descending sort by `tsvSortKey` (any stable sort has the same extension as
Timsort; insertion sort keeps the model kernel-computable). -/
def tsv_sorted (mem : List IdExample) : List IdExample :=
  mem.insertionSort (fun a b => tsvSortKey b ≤ tsvSortKey a)

/-- Model of one pass of `TSVData.__iter__` in the configuration of the claim
(`shuffle=false`); with `longest_first` the materialized list is sorted and
both yielded and stored back.  Returns (yielded pass, new materialized state). -/
def tsv_iter (longest_first : Bool) (mem : List IdExample) :
    List IdExample × List IdExample :=
  if longest_first then
    let m := tsv_sorted mem
    (m, m)
  else (mem, mem)

/-- State after iterating a `longest_first` TSV store `n + 1` times, together
with the records the `(n + 1)`-th pass yielded. -/
def tsv_iterN (mem : List IdExample) : Nat → List IdExample × List IdExample
  | 0 => tsv_iter true mem
  | n + 1 => tsv_iter true (tsv_iterN mem n).2

/-- Model of the vocabulary `Field`: BOS, EOS and padding values. -/
structure Field where
  bos_idx : Int
  eos_idx : Int
  pad_idx : Int
deriving DecidableEq, Repr

/-- BOS half of `Batch.bos_eos_check` on one sequence: with `bos` set, prepend
the BOS value unless the first element already equals it; with `bos` unset,
assert the first element does not equal it.  An empty sequence is an index
error. -/
def bosCheck (bosVal : Int) (bos : Bool) (seq : List Int) : Except Unit (List Int) :=
  match seq.head? with
  | none => .error ()
  | some h =>
    if bos then
      if h = bosVal then .ok seq else .ok (bosVal :: seq)
    else
      if h = bosVal then .error () else .ok seq

/-- EOS half of `Batch.bos_eos_check` on one sequence, symmetric at the last
element. -/
def eosCheck (eosVal : Int) (eos : Bool) (seq : List Int) : Except Unit (List Int) :=
  match seq.getLast? with
  | none => .error ()
  | some l =>
    if eos then
      if l = eosVal then .ok seq else .ok (seq ++ [eosVal])
    else
      if l = eosVal then .error () else .ok seq

/-- Model of `Batch.bos_eos_check` on one sequence of one side: the BOS rule,
then the EOS rule on the (possibly prepended) sequence, exactly as the Python
loop body executes them. -/
def bos_eos_check1 (f : Field) (bos eos : Bool) (seq : List Int) : Except Unit (List Int) := do
  let s1 ← bosCheck f.bos_idx bos seq
  eosCheck f.eos_idx eos s1

/-- Left-aligned row of a padded matrix: the sequence followed by padding up to
the batch-wide width. -/
def padRow (pad : Int) (width : Nat) (row : List Int) : List Int :=
  row ++ List.replicate (width - row.length) pad

/-- Maximum of a list of lengths, as `tensor(lengths).max()` computes it on a
non-empty batch. -/
def natMaxList (l : List Nat) : Nat := l.foldl max 0

/-- Observable result of `Batch.__init__`: sizes, length vectors, token counts
and the padded matrices for both sides (`has_y` mirrors the presence check on
the first record). -/
structure BatchRes where
  size : Nat
  x_len : List Nat
  x_toks : Nat
  max_x_len : Nat
  x_seqs : List (List Int)
  has_y : Bool
  y_len : List Nat
  y_toks : Nat
  max_y_len : Nat
  y_seqs : List (List Int)
deriving DecidableEq, Repr

/-- Model of `Batch.__init__`: BOS/EOS-check the `x` side (in place), optionally
sort descending by source length, build the padded `x` matrix, then — when the
first record carries a `y` — BOS/EOS-check the `y` side and build the padded
`y` matrix.  An empty batch is an error (`max()` of an empty tensor); a record
with a missing `y` on the `y` pass is an error (`len(None)`). -/
def batchInit (f : Field) (sort_dec batch_first add_eos_x add_eos_y add_bos_x add_bos_y : Bool)
    (batch : List IdExample) : Except Unit BatchRes := do
  let xs ← exceptMap (fun r => bos_eos_check1 f add_bos_x add_eos_x r.x) batch
  let recs1 := (batch.zip xs).map (fun p => { x := p.2, y := p.1.y, id := p.1.id : IdExample })
  let recs := if sort_dec then recs1.insertionSort (fun a b => b.x.length ≤ a.x.length)
              else recs1
  if recs.isEmpty then .error ()
  else
    let x_len := recs.map (fun r => r.x.length)
    let max_x := natMaxList x_len
    let x_mat := recs.map (fun r => padRow f.pad_idx max_x r.x)
    let x_seqs := if batch_first then x_mat else x_mat.transpose
    match recs.head? with
    | none => .error ()
    | some r0 =>
      match r0.y with
      | none =>
        .ok { size := recs.length, x_len := x_len, x_toks := x_len.foldl (· + ·) 0,
              max_x_len := max_x, x_seqs := x_seqs, has_y := false,
              y_len := [], y_toks := 0, max_y_len := 0, y_seqs := [] }
      | some _ => do
        let ys ← exceptMap (fun r =>
            match r.y with
            | none => .error ()
            | some yl => bos_eos_check1 f add_bos_y add_eos_y yl) recs
        let y_len := ys.map List.length
        let max_y := natMaxList y_len
        let y_mat := ys.map (fun yl => padRow f.pad_idx max_y yl)
        let y_seqs := if batch_first then y_mat else y_mat.transpose
        .ok { size := recs.length, x_len := x_len, x_toks := x_len.foldl (· + ·) 0,
              max_x_len := max_x, x_seqs := x_seqs, has_y := true,
              y_len := y_len, y_toks := y_len.foldl (· + ·) 0, max_y_len := max_y,
              y_seqs := y_seqs }

/-- Length of a record as the admission loops measure it: the larger of the two
side lengths (records reaching the loops carry both sides). -/
def recLen (r : IdExample) : Nat :=
  max r.x.length (match r.y with | none => 0 | some yl => yl.length)

/-- Largest record length inside one formed batch. -/
def groupMax (g : List IdExample) : Nat := (g.map recLen).foldl max 0

/-- Grouping loop of `BatchIterable.read_all` with token budget `B`: stream the
records, skip a record empty on one side, admit the candidate when
`(count + 1) * max(max_len, this_len) <= B`, otherwise flush the current batch
and seed a new one — unless the candidate alone exceeds the budget, which is
the batch-overflow error.  A record with a missing `y` is an error
(`len(None)`). -/
def read_all_groups (B : Nat) : List IdExample → List IdExample → Nat →
    Except Unit (List (List IdExample))
  | [], batch, _ => .ok (if batch.isEmpty then [] else [batch])
  | ex :: rest, batch, max_len =>
    match ex.y with
    | none => .error ()
    | some yl =>
      if min ex.x.length yl.length = 0 then
        read_all_groups B rest batch max_len
      else
        let this_len := max ex.x.length yl.length
        if (batch.length + 1) * max max_len this_len ≤ B then
          read_all_groups B rest (batch ++ [ex]) (max max_len this_len)
        else if B < this_len then .error ()
        else
          match read_all_groups B rest [ex] this_len with
          | .error e => .error e
          | .ok more => .ok (batch :: more)

/-- Model of `BatchIterable.read_all`: group the streamed records under the
token budget, then build each group into a `Batch` with the constructor's
default alignment flags (`add_eos` on both sides, no `add_bos`). -/
def read_all (f : Field) (sort_desc batch_first : Bool) (B : Nat) (data : List IdExample) :
    Except Unit (List BatchRes) := do
  let gs ← read_all_groups B data [] 0
  exceptMap (batchInit f sort_desc batch_first true true false false) gs

/-- Lightweight projection row used by the equal-length strategy: `(id, x_len,
y_len)` with the stored (possibly `-1`) lengths. -/
abbrev Stat := Nat × Int × Int

/-- Projection of the sqlite store to `(id, x_len, y_len)` triples, before the
ORDER BY (the fetch order is a permutation quantified at the theorems). -/
def sqlite_stats (rows : List SRow) : List Stat :=
  rows.map (fun r => (r.id, (r.x_len : Int), r.y_len))

/-- Model of `BatchIterable._make_eq_len_batch_ids`: the same admission loop as
`read_all_groups`, run over scalar length projections only, collecting buckets
of record ids. -/
def make_eq_len_batch_ids (B : Nat) : List Stat → List Nat → Int →
    Except Unit (List (List Nat))
  | [], batch, _ => .ok (if batch.isEmpty then [] else [batch])
  | s :: rest, batch, max_len =>
    if min s.2.1 s.2.2 = 0 then make_eq_len_batch_ids B rest batch max_len
    else
      let this_len := max s.2.1 s.2.2
      if ((batch.length : Int) + 1) * max max_len this_len ≤ (B : Int) then
        make_eq_len_batch_ids B rest (batch ++ [s.1]) (max max_len this_len)
      else if (B : Int) < this_len then .error ()
      else
        match make_eq_len_batch_ids B rest [s.1] this_len with
        | .error e => .error e
        | .ok more => .ok (batch :: more)

/-- Ids of the projection rows the admission loop does not skip for emptiness. -/
def keptIds (stats : List Stat) : List Nat :=
  (stats.filter (fun s => !(min s.2.1 s.2.2 == 0))).map (fun s => s.1)

/-- Model of `LoopingIterable.__iter__` resumed at a given running `count`:
while `count < total`, run one full pass of the wrapped iterable (pass `pIdx`
yields the list `passes pIdx`), yielding and counting each batch and breaking
as soon as `count` reaches `total`.  `fuel` bounds the number of passes begun
(the source loops forever on an empty wrapped iterable).  Returns the yielded
batches and the final `count`. -/
def loopingRun {α : Type} (passes : Nat → List α) (total : Nat) :
    Nat → Nat → Nat → List α × Nat
  | 0, _, count => ([], count)
  | fuel + 1, pIdx, count =>
    if count < total then
      let out := (passes pIdx).take (total - count)
      let next := loopingRun passes total fuel (pIdx + 1) (count + out.length)
      (out ++ next.1, next.2)
    else ([], count)

/-- Model of `itertools.zip_longest` over two line streams, padding the shorter
one with `none`. -/
def zipLongest {α : Type} : List α → List α → List (Option α × Option α)
  | [], [] => []
  | [], y :: ys => (none, some y) :: zipLongest [] ys
  | x :: xs, [] => (some x, none) :: zipLongest xs []
  | x :: xs, y :: ys => (some x, some y) :: zipLongest xs ys

/-- Model of `line.strip()` applied to a `zip_longest` slot: calling `.strip()`
on the `None` padding is the AttributeError that signals unequal line counts. -/
def stripOpt : Option String → Except Unit String
  | none => .error ()
  | some s => .ok s.trim

/-- Strip both slots of one zipped pair, raising on the `None` padding the
shorter file contributes. -/
def stripPair (p : Option String × Option String) : Except Unit (String × String) := do
  let s ← stripOpt p.1
  let t ← stripOpt p.2
  .ok (s, t)

/-- Model of `TSVData.read_raw_parallel_lines`: zip the two files longest-wise,
strip both slots of every pair (raising on the `None` padding of the shorter
file), then drop pairs with an empty side. -/
def read_raw_parallel_lines (src tgt : List String) : Except Unit (List (String × String)) := do
  let recs ← exceptMap stripPair (zipLongest src tgt)
  .ok (recs.filter (fun p => !(p.1 == "") && !(p.2 == "")))

/-- Model of `TSVData.read_raw_parallel_recs`: read the raw pairs, tokenize both
sides, then truncate or length-filter. -/
def read_raw_parallel_recs (srcTok tgtTok : String → List Int) (truncate : Bool)
    (srcLen tgtLen : Nat) (src tgt : List String) :
    Except Unit (List (List Int × List Int)) := do
  let recs ← read_raw_parallel_lines src tgt
  let toks := recs.map (fun p => (srcTok p.1, tgtTok p.2))
  .ok (if truncate then toks.map (fun p => (p.1.take srcLen, p.2.take tgtLen))
       else toks.filter (fun p => decide (p.1.length ≤ srcLen) && decide (p.2.length ≤ tgtLen)))

/-- Preprocessing pipeline feeding `SqliteFile.write`: the store rows are
committed only after the record stream has been fully and successfully
consumed, so an error while reading the raw corpora yields no store at all. -/
def preprocess_and_write (srcTok tgtTok : String → List Int) (truncate : Bool)
    (srcLen tgtLen : Nat) (src tgt : List String) : Except Unit (List SRow) := do
  let recs ← read_raw_parallel_recs srcTok tgtTok truncate srcLen tgtLen src tgt
  .ok (sqlite_write (recs.map (fun p => (p.1, some p.2))))

/-! ### Shared helper lemmas -/

@[simp] theorem exceptBind_error {α β : Type} (e : Unit) (f : α → Except Unit β) :
    (Except.error e : Except Unit α) >>= f = .error () := rfl

@[simp] theorem exceptBind_ok {α β : Type} (a : α) (f : α → Except Unit β) :
    (Except.ok a : Except Unit α) >>= f = f a := rfl

theorem exceptMap_error_of_mem {α β : Type} {f : α → Except Unit β} :
    ∀ {l : List α} {x : α}, x ∈ l → f x = .error () → exceptMap f l = .error () := by
  intro l
  induction l with
  | nil => intro x hx; cases hx
  | cons a t ih =>
    intro x hx hf
    rcases List.mem_cons.mp hx with h | h
    · subst h; simp [exceptMap, hf]
    · cases ha : f a with
      | error e => simp [exceptMap, ha]
      | ok b => simp [exceptMap, ha, ih h hf]

theorem exceptMap_ok_of_forall {α β : Type} {f : α → Except Unit β} (g : α → β) :
    ∀ {l : List α}, (∀ x ∈ l, f x = .ok (g x)) → exceptMap f l = .ok (l.map g) := by
  intro l
  induction l with
  | nil => intro _; rfl
  | cons a t ih =>
    intro h
    have ha := h a (List.mem_cons_self a t)
    have ht := ih (fun x hx => h x (List.mem_cons_of_mem a hx))
    simp [exceptMap, ha, ht]

/-! ### C3: the looping iterable -/

theorem loopingRun_spec {α : Type} (passes : Nat → List α) (total k : Nat)
    (hk : 0 < k) (hlen : ∀ n, (passes n).length = k) :
    ∀ fuel pIdx count, total - count ≤ fuel →
      ((loopingRun passes total fuel pIdx count).1.length = total - count) ∧
      (∀ j, j < total - count →
        (loopingRun passes total fuel pIdx count).1[j]? = (passes (pIdx + j / k))[j % k]?) := by
  intro fuel
  induction fuel with
  | zero =>
    intro pIdx count hfuel
    have h0 : total - count = 0 := Nat.le_zero.mp hfuel
    simp [loopingRun, h0]
  | succ fuel ih =>
    intro pIdx count hfuel
    by_cases hc : count < total
    · simp only [loopingRun, if_pos hc]
      by_cases hle : total - count ≤ k
      · -- the pass finishes the run: count reaches total inside this pass
        have hlen1 : ((passes pIdx).take (total - count)).length = total - count := by
          rw [List.length_take, hlen pIdx]; omega
        rw [hlen1]
        have hct : count + (total - count) = total := by omega
        rw [hct]
        have hrec := ih (pIdx + 1) total (by omega)
        have hrl : (loopingRun passes total fuel (pIdx + 1) total).1.length = 0 := by
          rw [hrec.1]; omega
        constructor
        · rw [List.length_append, hlen1, hrl]
          omega
        · intro j hj
          have hj1 : j < ((passes pIdx).take (total - count)).length := by
            rw [hlen1]; exact hj
          rw [List.getElem?_append_left hj1, List.getElem?_take_of_lt hj]
          have hjk : j < k := by omega
          rw [Nat.div_eq_of_lt hjk, Nat.mod_eq_of_lt hjk, Nat.add_zero]
      · -- the whole pass is consumed and the loop wraps around
        have hkt : k < total - count := by omega
        have htake : (passes pIdx).take (total - count) = passes pIdx :=
          List.take_of_length_le (by rw [hlen pIdx]; omega)
        rw [htake, hlen pIdx]
        have hrec := ih (pIdx + 1) (count + k) (by omega)
        constructor
        · rw [List.length_append, hlen pIdx, hrec.1]; omega
        · intro j hj
          by_cases hjk : j < k
          · have hj1 : j < (passes pIdx).length := by rw [hlen pIdx]; exact hjk
            rw [List.getElem?_append_left hj1]
            rw [Nat.div_eq_of_lt hjk, Nat.mod_eq_of_lt hjk, Nat.add_zero]
          · have hkj : k ≤ j := by omega
            have hj1 : (passes pIdx).length ≤ j := by rw [hlen pIdx]; omega
            rw [List.getElem?_append_right hj1, hlen pIdx]
            have hjlt : j - k < total - (count + k) := by omega
            rw [hrec.2 (j - k) hjlt]
            have hm : j - k + k = j := Nat.sub_add_cancel hkj
            have hdiv : j / k = (j - k) / k + 1 := by
              conv_lhs => rw [← hm]
              exact Nat.add_div_right _ hk
            have hmod : j % k = (j - k) % k := by
              conv_lhs => rw [← hm]
              exact Nat.add_mod_right _ _
            rw [hdiv, hmod]
            have harg : pIdx + 1 + (j - k) / k = pIdx + ((j - k) / k + 1) := by ring
            rw [harg]
    · have h0 : total - count = 0 := by omega
      simp [loopingRun, if_neg hc, h0]

/-- C3: a `LoopingIterable` over a wrapped iterable yielding `k ≥ 1` batches per
pass, with target `T > k`, yields exactly `T` batches in one full iteration
(re-invoking the wrapped iterable as passes are exhausted and stopping exactly
at the `T`-th, even mid-pass), and the `i`-th emitted batch (0-indexed) is the
`(i mod k)`-th batch of pass `i / k` of the wrapped iterable; no batch is
emitted after the `T`-th. -/
theorem c3_looping_iterable {α : Type} (passes : Nat → List α) (k T : Nat)
    (hlen : ∀ n, (passes n).length = k) (hk : 0 < k) (hT : k < T) :
    ((loopingRun passes T T 0 0).1.length = T) ∧
    (∀ i, i < T → (loopingRun passes T T 0 0).1[i]? = (passes (i / k))[i % k]?) := by
  have h := loopingRun_spec passes T k hk hlen T 0 0 (by simp)
  refine ⟨by simpa using h.1, fun i hi => ?_⟩
  have := h.2 i (by simpa using hi)
  simpa using this

/-- Witness for C3 at the concrete wrapped iterable with passes `[0, 1]`
(`k = 2`) and target `T = 5`. -/
theorem c3_looping_iterable_witness :
    ((loopingRun (fun _ => [(0 : Nat), 1]) 5 5 0 0).1.length = 5) ∧
    ((loopingRun (fun _ => [(0 : Nat), 1]) 5 5 0 0).1[3]? =
      ((fun _ => [(0 : Nat), 1]) (3 / 2))[3 % 2]?) := by
  have h := c3_looping_iterable (fun _ => [(0 : Nat), 1]) 2 5 (fun _ => rfl)
    (by decide) (by decide)
  exact ⟨h.1, h.2 3 (by decide)⟩

/-! ### C10: the looping iterable's counter persists across iterations -/

theorem loopingRun_count {α : Type} (passes : Nat → List α) (total : Nat) :
    ∀ fuel pIdx count, count ≤ total →
      (loopingRun passes total fuel pIdx count).2 ≤ total ∧
      (loopingRun passes total fuel pIdx count).1.length + count =
        (loopingRun passes total fuel pIdx count).2 := by
  intro fuel
  induction fuel with
  | zero => intro pIdx count h; simpa [loopingRun] using h
  | succ fuel ih =>
    intro pIdx count h
    by_cases hc : count < total
    · simp only [loopingRun, if_pos hc]
      have hout : ((passes pIdx).take (total - count)).length ≤ total - count := by
        rw [List.length_take]; exact Nat.min_le_left _ _
      have hle : count + ((passes pIdx).take (total - count)).length ≤ total := by omega
      have hrec := ih (pIdx + 1) (count + ((passes pIdx).take (total - count)).length) hle
      refine ⟨hrec.1, ?_⟩
      rw [List.length_append]
      omega
    · simpa [loopingRun, if_neg hc] using h

/-- C10: the running counter of a `LoopingIterable` is never reset — starting an
iteration at running count `c ≤ T` yields exactly `final - c` batches for a
final count that never exceeds `T`; in particular an iteration started after
the count already reached `T` (a completed previous iteration) yields zero
batches. -/
theorem c10_looping_counter_persistent {α : Type} (passes : Nat → List α) (total : Nat) :
    (∀ fuel pIdx count, count ≤ total →
      (loopingRun passes total fuel pIdx count).2 ≤ total ∧
      (loopingRun passes total fuel pIdx count).1.length + count =
        (loopingRun passes total fuel pIdx count).2) ∧
    (∀ fuel pIdx, loopingRun passes total fuel pIdx total = ([], total)) := by
  refine ⟨loopingRun_count passes total, fun fuel pIdx => ?_⟩
  cases fuel with
  | zero => rfl
  | succ fuel => simp [loopingRun]

/-- Witness for C10 at a concrete wrapped iterable and target `T = 2`: a resumed
iteration respects the bound, and an iteration after completion yields nothing. -/
theorem c10_looping_counter_persistent_witness :
    ((loopingRun (fun _ => [(0 : Nat)]) 2 3 0 0).2 ≤ 2 ∧
      (loopingRun (fun _ => [(0 : Nat)]) 2 3 0 0).1.length + 0 =
        (loopingRun (fun _ => [(0 : Nat)]) 2 3 0 0).2) ∧
    loopingRun (fun _ => [(0 : Nat)]) 2 3 0 2 = ([], 2) := by
  have h := c10_looping_counter_persistent (fun _ => [(0 : Nat)]) 2
  exact ⟨h.1 3 0 0 (by decide), h.2 3 0⟩

/-! ### C4: unequal raw parallel corpora are a fatal error -/

theorem exceptMap_stripPair_error :
    ∀ (src tgt : List String), src.length ≠ tgt.length →
      exceptMap stripPair (zipLongest src tgt) = .error () := by
  intro src
  induction src with
  | nil =>
    intro tgt h
    cases tgt with
    | nil => simp at h
    | cons y ys => simp [zipLongest, exceptMap, stripPair, stripOpt]
  | cons x xs ih =>
    intro tgt h
    cases tgt with
    | nil => simp [zipLongest, exceptMap, stripPair, stripOpt]
    | cons y ys =>
      have hne : xs.length ≠ ys.length := by simpa using h
      simp [zipLongest, exceptMap, stripPair, stripOpt, ih ys hne]

/-- C4: for every pair of raw parallel files with unequal line counts, reading
the line pairs is an error (`zip_longest` pads the shorter file with `None` and
stripping that padding raises), and the preprocess-and-write pipeline built on
it commits no store rows at all — the error precedes any store output. -/
theorem c4_corpus_mismatch (srcTok tgtTok : String → List Int) (truncate : Bool)
    (srcLen tgtLen : Nat) (src tgt : List String) (h : src.length ≠ tgt.length) :
    read_raw_parallel_lines src tgt = .error () ∧
    preprocess_and_write srcTok tgtTok truncate srcLen tgtLen src tgt = .error () := by
  have hlines : read_raw_parallel_lines src tgt = .error () := by
    simp [read_raw_parallel_lines, exceptMap_stripPair_error src tgt h]
  refine ⟨hlines, ?_⟩
  simp [preprocess_and_write, read_raw_parallel_recs, hlines]

/-- Witness for C4 at concrete files with 1 and 0 lines. -/
theorem c4_corpus_mismatch_witness :
    read_raw_parallel_lines ["a"] [] = .error () ∧
    preprocess_and_write (fun _ => []) (fun _ => []) false 512 512 ["a"] [] = .error () :=
  c4_corpus_mismatch (fun _ => []) (fun _ => []) false 512 512 ["a"] [] (by decide)

/-! ### C6: BOS/EOS enforcement -/

theorem head?_append_singleton {l : List Int} (e : Int) (h : l ≠ []) :
    (l ++ [e]).head? = l.head? := by
  cases l with
  | nil => exact absurd rfl h
  | cons a t => rfl

theorem getLast?_cons_ne_nil {l : List Int} (a : Int) (h : l ≠ []) :
    (a :: l).getLast? = l.getLast? := by
  cases l with
  | nil => exact absurd rfl h
  | cons b t => exact List.getLast?_cons_cons

theorem bosCheck_ok_true {v : Int} {s r : List Int} (h : bosCheck v true s = .ok r) :
    (r = s ∨ r = v :: s) ∧ r.head? = some v := by
  cases hh : s.head? with
  | none =>
    simp only [bosCheck, hh] at h
    exact Except.noConfusion h
  | some a =>
    simp only [bosCheck, hh, if_true] at h
    by_cases hav : a = v
    · rw [if_pos hav] at h
      cases h
      exact ⟨Or.inl rfl, by rw [hh, hav]⟩
    · rw [if_neg hav] at h
      cases h
      exact ⟨Or.inr rfl, rfl⟩

theorem bosCheck_ok_false {v : Int} {s r : List Int} (h : bosCheck v false s = .ok r) :
    r = s ∧ s.head? ≠ some v := by
  cases hh : s.head? with
  | none =>
    simp only [bosCheck, hh] at h
    exact Except.noConfusion h
  | some a =>
    simp only [bosCheck, hh, Bool.false_eq_true, if_false] at h
    by_cases hav : a = v
    · rw [if_pos hav] at h; cases h
    · rw [if_neg hav] at h
      cases h
      exact ⟨rfl, by simp [hh, hav]⟩

theorem bosCheck_ok_ne_nil {v : Int} {bos : Bool} {s r : List Int}
    (hs : s ≠ []) (h : bosCheck v bos s = .ok r) : r ≠ [] := by
  cases bos with
  | true =>
    rcases (bosCheck_ok_true h).1 with h1 | h1 <;> subst h1
    · exact hs
    · simp
  | false =>
    rw [(bosCheck_ok_false h).1]
    exact hs

theorem bosCheck_preserves_last {v : Int} {bos : Bool} {s r : List Int}
    (hs : s ≠ []) (h : bosCheck v bos s = .ok r) : r.getLast? = s.getLast? := by
  cases bos with
  | true =>
    rcases (bosCheck_ok_true h).1 with h1 | h1 <;> subst h1
    · rfl
    · exact getLast?_cons_ne_nil v hs
  | false => rw [(bosCheck_ok_false h).1]

theorem bosCheck_self_true {v : Int} {s : List Int} (h : s.head? = some v) :
    bosCheck v true s = .ok s := by
  simp [bosCheck, h]

theorem bosCheck_self_false {v a : Int} {s : List Int} (h : s.head? = some a) (hne : a ≠ v) :
    bosCheck v false s = .ok s := by
  simp [bosCheck, h, hne]

theorem bosCheck_error_false {v : Int} {s : List Int} (h : s.head? = some v) :
    bosCheck v false s = .error () := by
  simp [bosCheck, h]

theorem eosCheck_ok_true {e : Int} {s r : List Int} (h : eosCheck e true s = .ok r) :
    (r = s ∨ r = s ++ [e]) ∧ r.getLast? = some e := by
  cases hl : s.getLast? with
  | none =>
    simp only [eosCheck, hl] at h
    exact Except.noConfusion h
  | some a =>
    simp only [eosCheck, hl, if_true] at h
    by_cases hae : a = e
    · rw [if_pos hae] at h
      cases h
      exact ⟨Or.inl rfl, by rw [hl, hae]⟩
    · rw [if_neg hae] at h
      cases h
      exact ⟨Or.inr rfl, List.getLast?_concat s⟩

theorem eosCheck_ok_false {e : Int} {s r : List Int} (h : eosCheck e false s = .ok r) :
    r = s ∧ s.getLast? ≠ some e := by
  cases hl : s.getLast? with
  | none =>
    simp only [eosCheck, hl] at h
    exact Except.noConfusion h
  | some a =>
    simp only [eosCheck, hl, Bool.false_eq_true, if_false] at h
    by_cases hae : a = e
    · rw [if_pos hae] at h; cases h
    · rw [if_neg hae] at h
      cases h
      exact ⟨rfl, by simp [hl, hae]⟩

theorem eosCheck_preserves_head {e : Int} {eos : Bool} {s r : List Int}
    (hs : s ≠ []) (h : eosCheck e eos s = .ok r) : r.head? = s.head? := by
  cases eos with
  | true =>
    rcases (eosCheck_ok_true h).1 with h1 | h1 <;> subst h1
    · rfl
    · exact head?_append_singleton e hs
  | false => rw [(eosCheck_ok_false h).1]

theorem eosCheck_self_true {e : Int} {s : List Int} (h : s.getLast? = some e) :
    eosCheck e true s = .ok s := by
  simp [eosCheck, h]

theorem eosCheck_self_false {e a : Int} {s : List Int} (h : s.getLast? = some a) (hne : a ≠ e) :
    eosCheck e false s = .ok s := by
  simp [eosCheck, h, hne]

theorem eosCheck_error_false {e : Int} {s : List Int} (h : s.getLast? = some e) :
    eosCheck e false s = .error () := by
  simp [eosCheck, h]

/-- C6: the BOS/EOS check (`Batch.bos_eos_check`, per sequence) is idempotent
and precondition-checked on non-empty sequences: a successful check is a fixed
point when applied again (so sentinels are never duplicated); a sequence
already carrying both sentinels with both flags on is returned unchanged; and
with a flag off, a sequence already starting (resp. ending) with the BOS
(resp. EOS) value is an assertion error. -/
theorem c6_bos_eos_idempotent (f : Field) (bos eos : Bool) (seq : List Int) (hne : seq ≠ []) :
    (∀ r, bos_eos_check1 f bos eos seq = .ok r → bos_eos_check1 f bos eos r = .ok r) ∧
    (bos = true → eos = true → seq.head? = some f.bos_idx → seq.getLast? = some f.eos_idx →
      bos_eos_check1 f bos eos seq = .ok seq) ∧
    (bos = false → seq.head? = some f.bos_idx → bos_eos_check1 f bos eos seq = .error ()) ∧
    (eos = false → seq.getLast? = some f.eos_idx → bos_eos_check1 f bos eos seq = .error ()) := by
  refine ⟨?_, ?_, ?_, ?_⟩
  · -- idempotence
    intro r h
    simp only [bos_eos_check1] at h
    cases hb : bosCheck f.bos_idx bos seq with
    | error e => rw [hb] at h; simp at h
    | ok s1 =>
      rw [hb] at h
      simp only [exceptBind_ok] at h
      have hs1ne : s1 ≠ [] := bosCheck_ok_ne_nil hne hb
      have hrne : r ≠ [] := by
        cases eos with
        | true =>
          rcases (eosCheck_ok_true h).1 with h1 | h1 <;> subst h1
          · exact hs1ne
          · simp
        | false => rw [(eosCheck_ok_false h).1]; exact hs1ne
      have hhead : r.head? = s1.head? := eosCheck_preserves_head hs1ne h
      have hbr : bosCheck f.bos_idx bos r = .ok r := by
        cases bos with
        | true =>
          have := (bosCheck_ok_true hb).2
          exact bosCheck_self_true (by rw [hhead, this])
        | false =>
          have hseq : s1 = seq := (bosCheck_ok_false hb).1
          have hnv : seq.head? ≠ some f.bos_idx := (bosCheck_ok_false hb).2
          cases ha : seq.head? with
          | none => exact absurd (List.head?_eq_none_iff.mp ha) hne
          | some a =>
            have hav : a ≠ f.bos_idx := by
              intro hcon
              exact hnv (by rw [ha, hcon])
            exact bosCheck_self_false (by rw [hhead, hseq, ha]) hav
      have her : eosCheck f.eos_idx eos r = .ok r := by
        cases eos with
        | true => exact eosCheck_self_true (eosCheck_ok_true h).2
        | false =>
          have hseq : r = s1 := (eosCheck_ok_false h).1
          have hnv : s1.getLast? ≠ some f.eos_idx := (eosCheck_ok_false h).2
          cases ha : s1.getLast? with
          | none => exact absurd (List.getLast?_eq_none_iff.mp ha) hs1ne
          | some a =>
            have hav : a ≠ f.eos_idx := by
              intro hcon
              exact hnv (by rw [ha, hcon])
            exact eosCheck_self_false (by rw [hseq, ha]) hav
      simp only [bos_eos_check1, hbr, exceptBind_ok]
      exact her
  · -- already-sentineled sequences are unchanged
    intro hb he hhead hlast
    subst hb; subst he
    simp only [bos_eos_check1, bosCheck_self_true hhead, exceptBind_ok]
    exact eosCheck_self_true hlast
  · -- BOS contract violation
    intro hb hhead
    subst hb
    simp only [bos_eos_check1, bosCheck_error_false hhead]
    rfl
  · -- EOS contract violation
    intro he hlast
    subst he
    cases hb : bosCheck f.bos_idx bos seq with
    | error e =>
      simp only [bos_eos_check1, hb]
      cases e
      rfl
    | ok s1 =>
      have hlast1 : s1.getLast? = some f.eos_idx := by
        rw [bosCheck_preserves_last hne hb, hlast]
      simp only [bos_eos_check1, hb, exceptBind_ok]
      exact eosCheck_error_false hlast1

/-- Witness for C6 at a concrete field and sequences. -/
theorem c6_bos_eos_idempotent_witness :
    (bos_eos_check1 ⟨1, 2, 0⟩ true true [1, 5, 2] = .ok [1, 5, 2]) ∧
    (bos_eos_check1 ⟨1, 2, 0⟩ false true [1, 5] = .error ()) := by
  refine ⟨(c6_bos_eos_idempotent ⟨1, 2, 0⟩ true true [1, 5, 2] (by decide)).2.1
      rfl rfl rfl rfl, ?_⟩
  exact (c6_bos_eos_idempotent ⟨1, 2, 0⟩ false true [1, 5] (by decide)).2.2.1 rfl rfl

/-! ### C9: flat-file ordering with longest_first -/

/-- C9: a flat-file store with `shuffle=false, longest_first=true` over three
records of source lengths `[2, 5, 3]` (no target side) presents them in length
order `5, 3, 2` on the first and every subsequent pass — the materialized order
reached after the first pass is a fixed point of all later passes, so the
observable order never changes. -/
theorem c9_flat_file_ordering :
    (∀ n : Nat,
      tsv_iterN (tsv_read_all 512 512 false
          [([1, 1], none), ([1, 1, 1, 1, 1], none), ([1, 1, 1], none)]) n =
        ([⟨[1, 1, 1, 1, 1], none, 1⟩, ⟨[1, 1, 1], none, 2⟩, ⟨[1, 1], none, 0⟩],
         [⟨[1, 1, 1, 1, 1], none, 1⟩, ⟨[1, 1, 1], none, 2⟩, ⟨[1, 1], none, 0⟩])) ∧
    ([⟨[1, 1, 1, 1, 1], none, 1⟩, ⟨[1, 1, 1], none, 2⟩,
      ⟨[1, 1], none, 0⟩] : List IdExample).map (fun e => e.x.length) = [5, 3, 2] := by
  refine ⟨?_, by decide⟩
  intro n
  induction n with
  | zero => decide
  | succ n ih =>
    simp only [tsv_iterN]
    rw [ih]
    decide

/-- Witness for C9 at the third pass. -/
theorem c9_flat_file_ordering_witness :
    tsv_iterN (tsv_read_all 512 512 false
        [([1, 1], none), ([1, 1, 1, 1, 1], none), ([1, 1, 1], none)]) 2 =
      ([⟨[1, 1, 1, 1, 1], none, 1⟩, ⟨[1, 1, 1], none, 2⟩, ⟨[1, 1], none, 0⟩],
       [⟨[1, 1, 1, 1, 1], none, 1⟩, ⟨[1, 1, 1], none, 2⟩, ⟨[1, 1], none, 0⟩]) :=
  c9_flat_file_ordering.1 2

/-! ### C7: indexed-store round-trip -/

theorem decInts_encode : ∀ xs : List Int,
    decInts xs.length ((xs.map encInt).flatten) = some xs := by
  intro xs
  induction xs with
  | nil => rfl
  | cons x t ih =>
    by_cases hx : x < 0
    · have hval : -|x| = x := by rw [abs_of_neg hx]; exact neg_neg x
      simp [encInt, decInts, hx, ih, hval]
    · have hval : |x| = x := abs_of_nonneg (le_of_not_lt hx)
      simp [encInt, decInts, hx, ih, hval]

theorem decodeBlob_encodeBlob (xs : List Int) : decodeBlob (encodeBlob xs) = some xs := by
  simp [decodeBlob, encodeBlob, decInts_encode]

theorem sqlite_read_row_mkRow {maxS maxT : Nat} {x y : List Int} (i : Nat)
    (hx : x ≠ []) (hy : y ≠ []) (hxl : x.length ≤ maxS) (hyl : y.length ≤ maxT) :
    sqlite_read_row maxS maxT false (mkRow (x, some y) i) =
      .ok (some ⟨x, some y, i⟩) := by
  simp [sqlite_read_row, mkRow, decodeBlob_encodeBlob, List.isEmpty_iff, hx, hy,
    Nat.not_lt.mpr hxl, Nat.not_lt.mpr hyl]

theorem rowToExample_mkRow {maxS maxT : Nat} {x y : List Int} (i : Nat)
    (hx : x ≠ []) (hy : y ≠ []) (hxl : x.length ≤ maxS) (hyl : y.length ≤ maxT) :
    rowToExample maxS maxT false (mkRow (x, some y) i) = some ⟨x, some y, i⟩ := by
  simp [rowToExample, sqlite_read_row_mkRow i hx hy hxl hyl]

theorem mem_sqlite_write_go :
    ∀ (l : List (List Int × Option (List Int))) (n : Nat) (r : SRow),
      r ∈ sqlite_write_go l n → ∃ p ∈ l, ∃ i, r = mkRow p i := by
  intro l
  induction l with
  | nil => intro n r hr; cases hr
  | cons a t ih =>
    intro n r hr
    rcases List.mem_cons.mp hr with h | h
    · exact ⟨a, List.mem_cons_self a t, n, h⟩
    · obtain ⟨p, hp, i, hi⟩ := ih (n + 1) r h
      exact ⟨p, List.mem_cons_of_mem a hp, i, hi⟩

theorem write_filterMap_strip {maxS maxT : Nat} :
    ∀ (records : List (List Int × List Int)) (n : Nat),
      (∀ p ∈ records, p.1 ≠ [] ∧ p.2 ≠ [] ∧ p.1.length ≤ maxS ∧ p.2.length ≤ maxT) →
      ((sqlite_write_go (records.map (fun p => (p.1, some p.2))) n).filterMap
          (rowToExample maxS maxT false)).map (fun r => (r.x, r.y)) =
        records.map (fun p => (p.1, some p.2)) := by
  intro records
  induction records with
  | nil => intro n _; rfl
  | cons a t ih =>
    intro n hgood
    have ha := hgood a (List.mem_cons_self a t)
    have ht := fun p hp => hgood p (List.mem_cons_of_mem a hp)
    simp only [List.map_cons, sqlite_write_go, List.filterMap_cons,
      rowToExample_mkRow n ha.1 ha.2.1 ha.2.2.1 ha.2.2.2]
    rw [ih (n + 1) ht]

/-- C7 (amended): writing records whose two sides are both non-empty and within
the reader's length limits to the indexed store and reading all records back in
any fetch order yields exactly the original `(x, y)` pairs up to order — the
blob serialization round-trips each variable-length integer sequence exactly.
(Records with an empty side, or longer than the reader's limits with
`truncate=false`, are skipped by the read path and do not round-trip.) -/
theorem c7_roundtrip_amended (maxS maxT : Nat) (records : List (List Int × List Int))
    (hgood : ∀ p ∈ records, p.1 ≠ [] ∧ p.2 ≠ [] ∧ p.1.length ≤ maxS ∧ p.2.length ≤ maxT)
    (rows : List SRow)
    (hperm : rows.Perm (sqlite_write (records.map (fun p => (p.1, some p.2))))) :
    sqlite_iter maxS maxT false rows =
      .ok (rows.filterMap (rowToExample maxS maxT false)) ∧
    ((rows.filterMap (rowToExample maxS maxT false)).map (fun r => (r.x, r.y))).Perm
      (records.map (fun p => (p.1, some p.2))) := by
  have hall : ∀ r ∈ rows,
      sqlite_read_row maxS maxT false r = .ok (rowToExample maxS maxT false r) := by
    intro r hr
    have hrw : r ∈ sqlite_write (records.map (fun p => (p.1, some p.2))) := hperm.subset hr
    obtain ⟨p, hp, i, hi⟩ := mem_sqlite_write_go _ 1 r hrw
    obtain ⟨q, hq, hqp⟩ := List.mem_map.mp hp
    have hgq := hgood q hq
    subst hi
    rw [← hqp]
    rw [sqlite_read_row_mkRow i hgq.1 hgq.2.1 hgq.2.2.1 hgq.2.2.2,
      rowToExample_mkRow i hgq.1 hgq.2.1 hgq.2.2.1 hgq.2.2.2]
  constructor
  · have hmap := exceptMap_ok_of_forall (rowToExample maxS maxT false) hall
    simp [sqlite_iter, hmap, List.filterMap_map]
    rfl
  · have hperm2 := (hperm.filterMap (rowToExample maxS maxT false)).map
      (fun r => (r.x, r.y))
    rw [sqlite_write, write_filterMap_strip records 1 hgood] at hperm2
    exact hperm2

/-- Witness for C7 (amended) at one concrete store read back in reversed order. -/
theorem c7_roundtrip_amended_witness :
    sqlite_iter 512 512 false
        ((sqlite_write [([1], some [2]), ([3, 3], some [4, 4])]).reverse) =
      .ok (((sqlite_write [([1], some [2]), ([3, 3], some [4, 4])]).reverse).filterMap
        (rowToExample 512 512 false)) ∧
    ((((sqlite_write [([1], some [2]), ([3, 3], some [4, 4])]).reverse).filterMap
        (rowToExample 512 512 false)).map (fun r => (r.x, r.y))).Perm
      ([([1], some [2]), ([3, 3], some [4, 4])] :
        List (List Int × Option (List Int))) := by
  have h := c7_roundtrip_amended 512 512 [([1], [2]), ([3, 3], [4, 4])]
    (by decide) ((sqlite_write [([1], some [2]), ([3, 3], some [4, 4])]).reverse)
    (by decide)
  exact ⟨h.1, h.2⟩

/-- Counterexample to C7 as stated: the pair `([1], [])` (empty target side) is
written to the store but reading back yields no records at all — the read path
silently skips records with an empty side, so the round-trip fails for this
input. -/
theorem c7_roundtrip_counterexample :
    sqlite_iter 512 512 false (sqlite_write [([1], some [])]) = .ok [] ∧
    ¬ (([] : List (List Int × Option (List Int))).Perm
        [([1], some ([] : List Int))]) :=
  ⟨rfl, by decide⟩

/-! ### C1: sequential token-budget bucketing -/

theorem groupMax_append (g : List IdExample) (e : IdExample) :
    groupMax (g ++ [e]) = max (groupMax g) (recLen e) := by
  simp [groupMax, List.foldl_append]

theorem read_all_groups_bound (B : Nat) :
    ∀ (data batch : List IdExample) (max_len : Nat),
      max_len = groupMax batch → batch.length * max_len ≤ B →
      ∀ gs, read_all_groups B data batch max_len = .ok gs →
        ∀ g ∈ gs, g.length * groupMax g ≤ B := by
  intro data
  induction data with
  | nil =>
    intro batch max_len hmax hbound gs hok g hg
    simp only [read_all_groups] at hok
    cases hok
    by_cases hb : batch.isEmpty
    · rw [if_pos hb] at hg; cases hg
    · rw [if_neg hb] at hg
      rcases List.mem_cons.mp hg with hgb | hgn
      · subst hgb; rw [← hmax]; exact hbound
      · cases hgn
  | cons ex rest ih =>
    intro batch max_len hmax hbound gs hok g hg
    cases hy : ex.y with
    | none =>
      simp only [read_all_groups, hy] at hok
      exact Except.noConfusion hok
    | some yl =>
      simp only [read_all_groups, hy] at hok
      have hrl : recLen ex = max ex.x.length yl.length := by simp [recLen, hy]
      by_cases hmin : min ex.x.length yl.length = 0
      · rw [if_pos hmin] at hok
        exact ih batch max_len hmax hbound gs hok g hg
      · rw [if_neg hmin] at hok
        by_cases hfit : (batch.length + 1) * max max_len (max ex.x.length yl.length) ≤ B
        · rw [if_pos hfit] at hok
          have hmax2 : max max_len (max ex.x.length yl.length) = groupMax (batch ++ [ex]) := by
            rw [groupMax_append, ← hmax, hrl]
          have hb2 : (batch ++ [ex]).length * max max_len (max ex.x.length yl.length) ≤ B := by
            rw [List.length_append]
            simpa using hfit
          exact ih (batch ++ [ex]) _ hmax2 hb2 gs hok g hg
        · rw [if_neg hfit] at hok
          by_cases hov : B < max ex.x.length yl.length
          · rw [if_pos hov] at hok; exact Except.noConfusion hok
          · rw [if_neg hov] at hok
            cases hrec : read_all_groups B rest [ex] (max ex.x.length yl.length) with
            | error e => rw [hrec] at hok; exact Except.noConfusion hok
            | ok more =>
              rw [hrec] at hok
              cases hok
              rcases List.mem_cons.mp hg with hgb | hgm
              · subst hgb; rw [← hmax]; exact hbound
              · apply ih [ex] (max ex.x.length yl.length) ?_ ?_ more hrec g hgm
                · simp [groupMax, hrl]
                · simpa using Nat.le_of_not_lt hov

theorem read_all_groups_overflow (B : Nat) :
    ∀ (data batch : List IdExample) (max_len : Nat),
      (∃ ex ∈ data, ∃ yl, ex.y = some yl ∧ 0 < min ex.x.length yl.length ∧
        B < max ex.x.length yl.length) →
      read_all_groups B data batch max_len = .error () := by
  intro data
  induction data with
  | nil =>
    intro batch max_len h
    obtain ⟨ex, hex, _⟩ := h
    cases hex
  | cons a rest ih =>
    intro batch max_len h
    obtain ⟨ex, hex, yl, hy, hmin, hov⟩ := h
    rcases List.mem_cons.mp hex with heq | hmem
    · subst heq
      simp only [read_all_groups, hy]
      rw [if_neg (by omega)]
      have hnfit : ¬ ((batch.length + 1) * max max_len (max ex.x.length yl.length) ≤ B) := by
        have h1 : max ex.x.length yl.length ≤ max max_len (max ex.x.length yl.length) :=
          le_max_right _ _
        have h2 : max max_len (max ex.x.length yl.length) ≤
            (batch.length + 1) * max max_len (max ex.x.length yl.length) :=
          Nat.le_mul_of_pos_left _ (Nat.succ_pos _)
        omega
      rw [if_neg hnfit, if_pos hov]
    · cases hay : a.y with
      | none => simp only [read_all_groups, hay]
      | some ayl =>
        simp only [read_all_groups, hay]
        by_cases hmin2 : min a.x.length ayl.length = 0
        · rw [if_pos hmin2]
          exact ih batch max_len ⟨ex, hmem, yl, hy, hmin, hov⟩
        · rw [if_neg hmin2]
          by_cases hfit : (batch.length + 1) * max max_len (max a.x.length ayl.length) ≤ B
          · rw [if_pos hfit]
            exact ih _ _ ⟨ex, hmem, yl, hy, hmin, hov⟩
          · rw [if_neg hfit]
            by_cases hov2 : B < max a.x.length ayl.length
            · rw [if_pos hov2]
            · rw [if_neg hov2, ih [a] (max a.x.length ayl.length) ⟨ex, hmem, yl, hy, hmin, hov⟩]

/-- C1: sequential token-budget bucketing (`BatchIterable.read_all`): every
batch the grouping loop produces satisfies
`batch_size * max_record_len_in_batch ≤ B`, and a streamed record with both
sides non-empty whose own length `max(x_len, y_len)` exceeds `B` makes the
whole run raise the batch-overflow error instead of being dropped or
truncated. -/
theorem c1_sequential_bucketing (B : Nat) (data : List IdExample) :
    (∀ gs, read_all_groups B data [] 0 = .ok gs →
      ∀ g ∈ gs, g.length * groupMax g ≤ B) ∧
    (∀ ex ∈ data, ∀ yl, ex.y = some yl → 0 < min ex.x.length yl.length →
      B < max ex.x.length yl.length → read_all_groups B data [] 0 = .error ()) := by
  constructor
  · intro gs hok
    exact read_all_groups_bound B data [] 0 rfl (by simp) gs hok
  · intro ex hex yl hy hmin hov
    exact read_all_groups_overflow B data [] 0 ⟨ex, hex, yl, hy, hmin, hov⟩

/-- Witness for C1: a one-record store within budget 6 obeys the bound, and a
lone record of length 4 overflows budget 3. -/
theorem c1_sequential_bucketing_witness :
    (([⟨[1, 1], some [1], 0⟩] : List IdExample).length *
        groupMax [⟨[1, 1], some [1], 0⟩] ≤ 6) ∧
    read_all_groups 3 [⟨[1, 1, 1, 1], some [1], 0⟩] [] 0 = .error () := by
  constructor
  · exact (c1_sequential_bucketing 6 [⟨[1, 1], some [1], 0⟩]).1
      [[⟨[1, 1], some [1], 0⟩]] rfl [⟨[1, 1], some [1], 0⟩] (by decide)
  · exact (c1_sequential_bucketing 3 [⟨[1, 1, 1, 1], some [1], 0⟩]).2
      ⟨[1, 1, 1, 1], some [1], 0⟩ (by decide) [1] rfl (by decide) (by decide)

/-! ### C8: the spec example scenario -/

/-- C8 (amended): for the store `[(id=0, x=[5,6], y=[7]), (id=1, x=[1],
y=[2,3,4])]` and budget `B=6`, sequential bucketing admits id 0
(`1*2 ≤ 6`) and then id 1 (`2*max(2,3) = 6 ≤ 6`), producing one batch of
size 2 — but `read_all` builds batches with the constructor's default
`add_eos_x = add_eos_y = true`, which appends the EOS value to each side, so
the padded matrices have shapes `[2, 3]` (x) and `[2, 4]` (y), not the
`[2, 2]` / `[2, 3]` of the raw lengths.  Stated for any field whose BOS value
avoids the sequences' first elements (the `bos=false` assertion) and whose EOS
value differs from `6` and `4`. -/
theorem c8_example_scenario_amended (f : Field)
    (hb5 : f.bos_idx ≠ 5) (hb1 : f.bos_idx ≠ 1) (hb7 : f.bos_idx ≠ 7) (hb2 : f.bos_idx ≠ 2)
    (he6 : f.eos_idx ≠ 6) (he4 : f.eos_idx ≠ 4) :
    read_all_groups 6 [⟨[5, 6], some [7], 0⟩, ⟨[1], some [2, 3, 4], 1⟩] [] 0 =
      .ok [[⟨[5, 6], some [7], 0⟩, ⟨[1], some [2, 3, 4], 1⟩]] ∧
    (read_all f false true 6 [⟨[5, 6], some [7], 0⟩, ⟨[1], some [2, 3, 4], 1⟩]).map
        (fun bs => bs.map (fun b =>
          (b.size, b.x_seqs.map List.length, b.y_seqs.map List.length))) =
      .ok [(2, [3, 3], [4, 4])] := by
  refine ⟨rfl, ?_⟩
  by_cases h1e : f.eos_idx = 1
  · by_cases h7e : f.eos_idx = 7
    · exact absurd (h1e.symm.trans h7e) (by decide)
    · simp [read_all, read_all_groups, exceptMap, batchInit, bos_eos_check1, bosCheck,
        eosCheck, natMaxList, padRow, Except.map, Ne.symm hb5, Ne.symm hb1, Ne.symm hb7,
        Ne.symm hb2, Ne.symm he6, Ne.symm he4, h1e, Ne.symm h7e]
  · by_cases h7e : f.eos_idx = 7
    · simp [read_all, read_all_groups, exceptMap, batchInit, bos_eos_check1, bosCheck,
        eosCheck, natMaxList, padRow, Except.map, Ne.symm hb5, Ne.symm hb1, Ne.symm hb7,
        Ne.symm hb2, Ne.symm he6, Ne.symm he4, Ne.symm h1e, h7e]
    · simp [read_all, read_all_groups, exceptMap, batchInit, bos_eos_check1, bosCheck,
        eosCheck, natMaxList, padRow, Except.map, Ne.symm hb5, Ne.symm hb1, Ne.symm hb7,
        Ne.symm hb2, Ne.symm he6, Ne.symm he4, Ne.symm h1e, Ne.symm h7e]

/-- Witness for C8 (amended) at the concrete field `(bos=10, eos=11, pad=0)`. -/
theorem c8_example_scenario_amended_witness :
    read_all_groups 6 [⟨[5, 6], some [7], 0⟩, ⟨[1], some [2, 3, 4], 1⟩] [] 0 =
      .ok [[⟨[5, 6], some [7], 0⟩, ⟨[1], some [2, 3, 4], 1⟩]] ∧
    (read_all ⟨10, 11, 0⟩ false true 6
        [⟨[5, 6], some [7], 0⟩, ⟨[1], some [2, 3, 4], 1⟩]).map
        (fun bs => bs.map (fun b =>
          (b.size, b.x_seqs.map List.length, b.y_seqs.map List.length))) =
      .ok [(2, [3, 3], [4, 4])] :=
  c8_example_scenario_amended ⟨10, 11, 0⟩ (by decide) (by decide) (by decide)
    (by decide) (by decide) (by decide)

/-- Counterexample to C8 as stated: at the concrete field `(bos=10, eos=11,
pad=0)` the single produced batch has `x_seqs` row lengths `[3, 3]` and
`y_seqs` row lengths `[4, 4]`, not the claimed shapes `[2, 2]` and `[2, 3]`
(row lengths `[2, 2]` and `[3, 3]`): default EOS insertion widens both
matrices. -/
theorem c8_example_scenario_counterexample :
    (read_all ⟨10, 11, 0⟩ false true 6
        [⟨[5, 6], some [7], 0⟩, ⟨[1], some [2, 3, 4], 1⟩]).map
        (fun bs => bs.map (fun b =>
          (b.size, b.x_seqs.map List.length, b.y_seqs.map List.length))) =
      .ok [(2, [3, 3], [4, 4])] ∧
    ([(2, [3, 3], [4, 4])] : List (Nat × List Nat × List Nat)) ≠
      [(2, [2, 2], [3, 3])] :=
  ⟨rfl, by decide⟩

/-! ### C2: equal-length randomized bucketing -/

theorem keptIds_cons (s : Stat) (rest : List Stat) :
    keptIds (s :: rest) =
      if min s.2.1 s.2.2 = 0 then keptIds rest else s.1 :: keptIds rest := by
  by_cases h : min s.2.1 s.2.2 = 0 <;> simp [keptIds, List.filter_cons, h]

theorem make_eq_flatten (B : Nat) :
    ∀ (stats : List Stat) (batch : List Nat) (max_len : Int) (bs : List (List Nat)),
      make_eq_len_batch_ids B stats batch max_len = .ok bs →
      bs.flatten = batch ++ keptIds stats := by
  intro stats
  induction stats with
  | nil =>
    intro batch max_len bs hok
    simp only [make_eq_len_batch_ids] at hok
    cases hok
    by_cases hb : batch.isEmpty
    · simp [List.isEmpty_iff.mp hb, keptIds]
    · have hne : batch ≠ [] := by simpa [List.isEmpty_iff] using hb
      simp [hne, keptIds, List.isEmpty_iff]
  | cons s rest ih =>
    intro batch max_len bs hok
    simp only [make_eq_len_batch_ids] at hok
    by_cases hmin : min s.2.1 s.2.2 = 0
    · rw [if_pos hmin] at hok
      rw [ih batch max_len bs hok, keptIds_cons, if_pos hmin]
    · rw [if_neg hmin] at hok
      by_cases hfit : ((batch.length : Int) + 1) * max max_len (max s.2.1 s.2.2) ≤ (B : Int)
      · rw [if_pos hfit] at hok
        rw [ih _ _ bs hok, keptIds_cons, if_neg hmin]
        simp
      · rw [if_neg hfit] at hok
        by_cases hov : (B : Int) < max s.2.1 s.2.2
        · rw [if_pos hov] at hok; exact Except.noConfusion hok
        · rw [if_neg hov] at hok
          cases hrec : make_eq_len_batch_ids B rest [s.1] (max s.2.1 s.2.2) with
          | error e => rw [hrec] at hok; exact Except.noConfusion hok
          | ok more =>
            rw [hrec] at hok
            cases hok
            rw [List.flatten_cons, ih [s.1] _ more hrec, keptIds_cons, if_neg hmin]
            simp

theorem filter_contains_perm {l sub : List Nat} (hl : l.Nodup) (hs : sub.Nodup)
    (hsub : ∀ a ∈ sub, a ∈ l) :
    (l.filter (fun a => decide (a ∈ sub))).Perm sub := by
  apply (List.perm_ext_iff_of_nodup (hl.filter _) hs).mpr
  intro a
  simp only [List.mem_filter, decide_eq_true_eq]
  constructor
  · intro h
    exact h.2
  · intro h
    exact ⟨hsub a h, h⟩

theorem decodeRow_ok_of_decodable {r : SRow} (h : decodableRow r = true) :
    decodeRow r = .ok (decodeRowPure r) := by
  cases hx : decodeBlob r.x with
  | none =>
    simp only [decodableRow, hx, Option.isSome_none, Bool.false_and] at h
    exact Bool.noConfusion h
  | some x =>
    cases hy : r.y with
    | none => simp [decodeRow, decodeRowPure, hx, hy]
    | some yb =>
      cases hyb : decodeBlob yb with
      | none =>
        simp only [decodableRow, hx, hy, hyb, Option.isSome_none,
          Option.isSome_some, Bool.true_and] at h
        exact Bool.noConfusion h
      | some y => simp [decodeRow, decodeRowPure, hx, hy, hyb]

theorem sqlite_get_all_ids_ok {rows : List SRow} (ids : List Nat)
    (hdec : ∀ r ∈ rows, decodableRow r = true) :
    sqlite_get_all_ids rows ids =
      .ok ((rows.filter (fun r => decide (r.id ∈ ids))).map decodeRowPure) := by
  unfold sqlite_get_all_ids
  apply exceptMap_ok_of_forall
  intro r hr
  exact decodeRow_ok_of_decodable (hdec r (List.mem_of_mem_filter hr))

theorem get_all_ids_ids (ids : List Nat) :
    ∀ rows : List SRow,
      ((rows.filter (fun r => decide (r.id ∈ ids))).map decodeRowPure).map (fun e => e.id) =
        (rows.map (fun r => r.id)).filter (fun i => decide (i ∈ ids)) := by
  intro rows
  induction rows with
  | nil => rfl
  | cons r t ih =>
    by_cases h : r.id ∈ ids <;>
      simp [List.filter_cons, h, ih, decodeRowPure]

/-- C2: equal-length randomized bucketing (`make_eq_len_ran_batches`): for any
fetch order of the length projection (a permutation of the store's rows) and
any bucket shuffle (a permutation of the bucket list), each emitted batch's
records — reconstituted by id random access — carry exactly the ids of its
bucket; the buckets' ids taken together are exactly the ids of the store rows
not skipped for emptiness; and no id occurs in two buckets. -/
theorem c2_eq_len_bucketing (B : Nat) (rows : List SRow) (stats : List Stat)
    (bs shuffled : List (List Nat))
    (hnd : (rows.map (fun r => r.id)).Nodup)
    (hstats : stats.Perm (sqlite_stats rows))
    (hok : make_eq_len_batch_ids B stats [] 0 = .ok bs)
    (hsh : shuffled.Perm bs)
    (hdec : ∀ r ∈ rows, decodableRow r = true) :
    (∀ bIds ∈ shuffled,
      sqlite_get_all_ids rows bIds =
        .ok ((rows.filter (fun r => decide (r.id ∈ bIds))).map decodeRowPure) ∧
      (((rows.filter (fun r => decide (r.id ∈ bIds))).map decodeRowPure).map
        (fun e => e.id)).Perm bIds) ∧
    bs.flatten.Perm (keptIds (sqlite_stats rows)) ∧
    bs.flatten.Nodup := by
  have hflat : bs.flatten = keptIds stats := by
    simpa using make_eq_flatten B stats [] 0 bs hok
  have hproj : (sqlite_stats rows).map (fun s => s.1) = rows.map (fun r => r.id) := by
    simp [sqlite_stats, List.map_map, Function.comp]
  have hstatsids : (stats.map (fun s => s.1)).Perm (rows.map (fun r => r.id)) :=
    hproj ▸ hstats.map (fun s => s.1)
  have hstats_nd : (stats.map (fun s => s.1)).Nodup := hstatsids.nodup_iff.mpr hnd
  have hkept_nd : (keptIds stats).Nodup := by
    simp only [keptIds]
    exact hstats_nd.sublist ((List.filter_sublist stats).map (fun s => s.1))
  refine ⟨?_, ?_, hflat ▸ hkept_nd⟩
  · intro bIds hbIds
    have hbs : bIds ∈ bs := hsh.subset hbIds
    have hbsub : ∀ a ∈ bIds, a ∈ rows.map (fun r => r.id) := by
      intro a ha
      have hflatmem : a ∈ bs.flatten := List.mem_flatten.mpr ⟨bIds, hbs, ha⟩
      rw [hflat] at hflatmem
      have hmem : a ∈ stats.map (fun s => s.1) := by
        simp only [keptIds] at hflatmem
        obtain ⟨s, hs, hsa⟩ := List.mem_map.mp hflatmem
        exact List.mem_map.mpr ⟨s, List.mem_of_mem_filter hs, hsa⟩
      exact hstatsids.subset hmem
    have hbnd : bIds.Nodup := by
      have hfn : bs.flatten.Nodup := hflat ▸ hkept_nd
      exact hfn.sublist (List.sublist_flatten_of_mem hbs)
    refine ⟨sqlite_get_all_ids_ok bIds hdec, ?_⟩
    rw [get_all_ids_ids]
    exact filter_contains_perm hnd hbnd hbsub
  · rw [hflat]
    simpa [keptIds] using
      ((hstats.filter (fun s => !(min s.2.1 s.2.2 == 0))).map (fun s => s.1))

/-- Witness for C2 at a concrete two-record store, budget 4, identity fetch
order and identity shuffle. -/
theorem c2_eq_len_bucketing_witness :
    make_eq_len_batch_ids 4
        (sqlite_stats (sqlite_write [([1], some [2]), ([3, 3], some [4, 4])])) [] 0 =
      .ok [[1, 2]] ∧
    (([[1, 2]] : List (List Nat)).flatten.Perm
        (keptIds (sqlite_stats (sqlite_write [([1], some [2]), ([3, 3], some [4, 4])]))) ∧
      ([[1, 2]] : List (List Nat)).flatten.Nodup) := by
  have h := c2_eq_len_bucketing 4 (sqlite_write [([1], some [2]), ([3, 3], some [4, 4])])
    (sqlite_stats (sqlite_write [([1], some [2]), ([3, 3], some [4, 4])]))
    [[1, 2]] [[1, 2]] (by decide) (List.Perm.refl _) rfl (List.Perm.refl _) (by decide)
  exact ⟨rfl, h.2.1, h.2.2⟩

/-! ### C5: random access by id list -/

theorem lookup_append (l1 l2 : List (Nat × Nat)) (a : Nat) :
    (l1 ++ l2).lookup a = ((l1.lookup a).or (l2.lookup a)) := by
  induction l1 with
  | nil => simp [List.lookup]
  | cons p t ih =>
    obtain ⟨k, v⟩ := p
    by_cases h : a = k
    · simp [List.lookup, h]
    · have hbe : (a == k) = false := beq_eq_false_iff_ne.mpr h
      simp [List.lookup, hbe, ih]

theorem inMemory_init_go_WF :
    ∀ (stream data : List IdExample) (ids : List (Nat × Nat)) (m : InMemoryData),
      inmemWF ⟨data, ids⟩ → (∀ e ∈ ids, e.2 < data.length) →
      inMemory_init_go stream data ids = .ok m → inmemWF m := by
  intro stream
  induction stream with
  | nil =>
    intro data ids m hwf hbound hok
    simp only [inMemory_init_go] at hok
    cases hok
    exact hwf
  | cons r rest ih =>
    intro data ids m hwf hbound hok
    simp only [inMemory_init_go] at hok
    by_cases hdup : (ids.lookup r.id).isSome
    · rw [if_pos hdup] at hok; exact Except.noConfusion hok
    · rw [if_neg hdup] at hok
      refine ih (data ++ [r]) (ids ++ [(r.id, data.length)]) m ?_ ?_ hok
      · -- the extended index is still well-formed
        intro i ix hlk
        rw [lookup_append] at hlk
        cases hl1 : ids.lookup i with
        | some v =>
          rw [hl1] at hlk
          have hlk2 : some v = some ix := hlk
          have hvix : v = ix := Option.some.inj hlk2
          subst hvix
          obtain ⟨ex, hex, hid⟩ := hwf i v hl1
          have hvlt : v < data.length := by
            rw [List.getElem?_eq_some] at hex
            exact hex.1
          exact ⟨ex, by rw [List.getElem?_append_left hvlt]; exact hex, hid⟩
        | none =>
          rw [hl1] at hlk
          simp only [Option.none_or] at hlk
          by_cases hir : i = r.id
          · subst hir
            simp only [List.lookup, beq_self_eq_true] at hlk
            cases hlk
            exact ⟨r, List.getElem?_concat_length data r, rfl⟩
          · have hbe : (i == r.id) = false := beq_eq_false_iff_ne.mpr hir
            simp only [List.lookup, hbe] at hlk
            exact Option.noConfusion hlk
      · intro e he
        rcases List.mem_append.mp he with h1 | h2
        · have := hbound e h1
          rw [List.length_append]
          omega
        · have he2 : e = (r.id, data.length) := List.mem_singleton.mp h2
          subst he2
          rw [List.length_append]
          simp

theorem inMemory_init_WF (stream : List IdExample) (m : InMemoryData)
    (h : inMemory_init stream = .ok m) : inmemWF m := by
  refine inMemory_init_go_WF stream [] [] m ?_ ?_ h
  · intro i ix hlk
    simp [List.lookup] at hlk
  · intro e he
    cases he

theorem inmem_get_all_ids_spec (m : InMemoryData) (hwf : inmemWF m) (ids : List Nat) :
    ((∀ i ∈ ids, (m.ids.lookup i).isSome) →
      ∃ out, inmem_get_all_ids m ids = .ok out ∧ out.length = ids.length ∧
        ∀ j : Nat, out[j]?.map (fun e : IdExample => e.id) = ids[j]?) ∧
    ((∃ i ∈ ids, m.ids.lookup i = none) → inmem_get_all_ids m ids = .error ()) := by
  constructor
  · induction ids with
    | nil =>
      intro _
      exact ⟨[], rfl, rfl, fun j => by simp⟩
    | cons i t ih =>
      intro hall
      have hi := hall i (List.mem_cons_self i t)
      cases hlk : m.ids.lookup i with
      | none => rw [hlk] at hi; exact Bool.noConfusion hi
      | some ix =>
        obtain ⟨ex, hex, hid⟩ := hwf i ix hlk
        obtain ⟨out, hout, hlen, hjs⟩ := ih (fun a ha => hall a (List.mem_cons_of_mem i ha))
        refine ⟨ex :: out, ?_, by simp [hlen], ?_⟩
        · have hout2 : exceptMap (inmem_lookup1 m) t = .ok out := hout
          simp [inmem_get_all_ids, exceptMap, inmem_lookup1, hlk, hex, hout2]
        · intro j
          cases j with
          | zero => simp [hid]
          | succ j => simpa using hjs j
  · intro h
    obtain ⟨i, hi, hnone⟩ := h
    apply exceptMap_error_of_mem hi
    simp [inmem_lookup1, hnone]

/-- C5 (amended): random access by id list behaves differently on the two
stores.  On the in-memory cache (`InMemoryData.get_all_ids`) the claim holds:
when every requested id is indexed the result has exactly one record per
requested id, in request order and with matching ids, and any missing
requested id makes the whole call a hard error (`KeyError`).  On the indexed
store (`SqliteFile.get_all_ids`), `SELECT ... WHERE id IN (...)` returns
exactly the store rows whose id occurs in the request — a requested id with no
matching row is silently omitted, with no error. -/
theorem c5_get_all_ids_amended :
    (∀ (stream : List IdExample) (m : InMemoryData), inMemory_init stream = .ok m →
      ∀ ids : List Nat,
        ((∀ i ∈ ids, (m.ids.lookup i).isSome) →
          ∃ out, inmem_get_all_ids m ids = .ok out ∧ out.length = ids.length ∧
            ∀ j : Nat, out[j]?.map (fun e : IdExample => e.id) = ids[j]?) ∧
        ((∃ i ∈ ids, m.ids.lookup i = none) → inmem_get_all_ids m ids = .error ())) ∧
    (∀ (rows : List SRow) (ids : List Nat), (∀ r ∈ rows, decodableRow r = true) →
      sqlite_get_all_ids rows ids =
        .ok ((rows.filter (fun r => decide (r.id ∈ ids))).map decodeRowPure) ∧
      ((rows.filter (fun r => decide (r.id ∈ ids))).map decodeRowPure).map
          (fun e => e.id) =
        (rows.map (fun r => r.id)).filter (fun i => decide (i ∈ ids))) := by
  constructor
  · intro stream m hinit ids
    exact inmem_get_all_ids_spec m (inMemory_init_WF stream m hinit) ids
  · intro rows ids hdec
    exact ⟨sqlite_get_all_ids_ok ids hdec, get_all_ids_ids ids rows⟩

/-- Witness for C5 (amended): the in-memory cache raises on a missing id, and
the indexed store answers a two-id request over a one-row store. -/
theorem c5_get_all_ids_amended_witness :
    inmem_get_all_ids ⟨[⟨[1], some [2], 7⟩], [(7, 0)]⟩ [7, 8] = .error () ∧
    sqlite_get_all_ids (sqlite_write [([1], some [2])]) [1, 2] =
      .ok (((sqlite_write [([1], some [2])]).filter
        (fun r => decide (r.id ∈ ([1, 2] : List Nat)))).map decodeRowPure) := by
  constructor
  · exact ((c5_get_all_ids_amended.1 [⟨[1], some [2], 7⟩]
      ⟨[⟨[1], some [2], 7⟩], [(7, 0)]⟩ rfl [7, 8]).2 ⟨8, by decide, by decide⟩)
  · exact (c5_get_all_ids_amended.2 (sqlite_write [([1], some [2])]) [1, 2] (by decide)).1

/-- Counterexample to C5 as stated: two ids are requested against a one-row
store; `SqliteFile.get_all_ids` returns a single record and no error, so the
operation neither returns one record per requested id nor fails. -/
theorem c5_get_all_ids_counterexample :
    sqlite_get_all_ids (sqlite_write [([1], some [2])]) [1, 2] =
      .ok [⟨[1], some [2], 1⟩] ∧
    ([⟨[1], some [2], 1⟩] : List IdExample).length ≠ ([1, 2] : List Nat).length :=
  ⟨rfl, by decide⟩

end Rtg
